import Mathlib

/-!
Verification of `scripts/validate_min_versions_in_sync.py`.

The script cross-checks minimum dependency versions across three sources:
a CI environment descriptor (yaml lines), the in-code compatibility table
(`_optional.VERSIONS` / `_optional.INSTALL_MAPPING`, supplied to the script
as data), and `pyproject.toml`'s optional-dependency groups.

Python strings are modelled as Lean `String` (operating on `String.data`,
a `List Char`); Python dicts as association lists `List (String × String)`
with in-place update on key collision (`dictInsert`), mirroring Python's
insertion-order semantics.  Python's `str.split(sep)` / `in` / `strip()`
are implemented from scratch on `List Char` with structural (fuel-based)
recursion so every definition is kernel-reducible.  Exceptions
(`ValueError` from tuple unpacking, `tomllib` parse failures) are modelled
with `Option`: `none` is an uncaught exception aborting the run.
-/

namespace MinVersionSync

/-- `startsWithList n l` is true when `n` is a prefix of `l`
(the matcher behind Python's substring search). -/
def startsWithList : List Char → List Char → Bool
  | [], _ => true
  | _ :: _, [] => false
  | a :: as, b :: bs => a == b && startsWithList as bs

/-- Python's `needle in hay` on character lists: some suffix of `hay`
starts with `needle`. -/
def containsSub (needle : List Char) : List Char → Bool
  | [] => needle.isEmpty
  | c :: rest => startsWithList needle (c :: rest) || containsSub needle rest

/-- Fuel-driven worker for Python's `hay.split(sep)`: scans left to right,
splitting at each leftmost non-overlapping occurrence of `sep`.  `acc` holds
the (reversed) characters of the piece currently being built.  The fuel is
always instantiated to `hay.length`, which is enough for every step to
consume at least one character. -/
def splitOnSubFuel (sep : List Char) : Nat → List Char → List Char → List (List Char)
  | 0, hay, acc => [acc.reverse ++ hay]
  | Nat.succ _, [], acc => [acc.reverse]
  | Nat.succ n, c :: rest, acc =>
    if startsWithList sep (c :: rest) then
      acc.reverse :: splitOnSubFuel sep n (List.drop (sep.length - 1) rest) []
    else
      splitOnSubFuel sep n rest (c :: acc)

/-- Python's `hay.split(sep)` (for a non-empty separator). -/
def splitOnSub (sep hay : List Char) : List (List Char) :=
  splitOnSubFuel sep hay.length hay []

/-- Number of leftmost non-overlapping occurrences of `sep` in `hay`,
counted by the same scan `splitOnSubFuel` performs. -/
def countSubFuel (sep : List Char) : Nat → List Char → Nat
  | 0, _ => 0
  | Nat.succ _, [] => 0
  | Nat.succ n, c :: rest =>
    if startsWithList sep (c :: rest) then
      countSubFuel sep n (List.drop (sep.length - 1) rest) + 1
    else
      countSubFuel sep n rest

/-- Number of non-overlapping occurrences of `sep` in `hay`. -/
def countSub (sep hay : List Char) : Nat :=
  countSubFuel sep hay.length hay

/-- Python's `str.strip()`: remove leading and trailing whitespace. -/
def stripChars (l : List Char) : List Char :=
  ((l.dropWhile Char.isWhitespace).reverse.dropWhile Char.isWhitespace).reverse

/-- Python's `needle in hay` on strings. -/
def pyContains (needle hay : String) : Bool :=
  containsSub needle.data hay.data

/-- Python's `s.strip()`. -/
def pyStrip (s : String) : String :=
  ⟨stripChars s.data⟩

/-- Python's `s.split(sep)` on strings. -/
def pySplit (sep s : String) : List String :=
  (splitOnSub sep.data s.data).map (fun l => ⟨l⟩)

/-- Python's `line.split("#")[0]`: the text before the first `'#'`
(the whole line when there is none). -/
def beforeHash (s : String) : String :=
  (pySplit "#" s).headD ""

/-- Python's `s.casefold()` (ASCII lowering, which is all the script's
inputs use). -/
def casefold (s : String) : String :=
  ⟨s.data.map Char.toLower⟩

/-- Python's `s[2:]`. -/
def pyDropTwo (s : String) : String :=
  ⟨s.data.drop 2⟩

/-- Python dict assignment `d[k] = v`: update in place when the key exists,
append otherwise (insertion order is preserved). -/
def dictInsert (d : List (String × String)) (k v : String) : List (String × String) :=
  if d.any (fun pr => pr.1 == k) then
    d.map (fun pr => if pr.1 == k then (k, v) else pr)
  else
    d ++ [(k, v)]

/-- Python's `d.pop(k, None)`: drop the entry with key `k`, if any. -/
def dictRemove (d : List (String × String)) (k : String) : List (String × String) :=
  d.filter (fun pr => !(pr.1 == k))

/-- Python's `d.get(k)` / `d[k]` lookup. -/
def pyGet (d : List (String × String)) (k : String) : Option String :=
  (d.find? (fun pr => pr.1 == k)).map (fun pr => pr.2)

/-- Python's `d.get(k, default)`. -/
def getOr (d : List (String × String)) (k default : String) : String :=
  (pyGet d k).getD default

/-- `EXCLUDE_DEPS = {"tzdata", "blosc"}` from the script. -/
def EXCLUDE_DEPS : List String := ["tzdata", "blosc"]

/-- State threaded through `get_versions_from_ci`'s loop: the two sentinel
flags and the two dicts under construction. -/
structure CiState where
  seen_required : Bool
  seen_optional : Bool
  required_deps : List (String × String)
  optional_deps : List (String × String)
deriving DecidableEq, Repr

/-- Tail of the per-line branch of `get_versions_from_ci`: drop the
two-character list-item marker, skip excluded packages, and record the
casefolded package in the section selected by `seen_optional`. -/
def addDep (st : CiState) (package version : String) : CiState :=
  let package := pyDropTwo package
  if EXCLUDE_DEPS.contains package then st
  else if !st.seen_optional then
    { st with required_deps := dictInsert st.required_deps (casefold package) version }
  else
    { st with optional_deps := dictInsert st.optional_deps (casefold package) version }

/-- Python's two-target tuple unpacking `package, version = pieces`:
succeeds exactly when the list has exactly two elements, otherwise it
raises `ValueError`. -/
def unpackTwo (pieces : List String) : Option (String × String) :=
  match pieces with
  | [package, version] => some (package, version)
  | _ => none

/-- One iteration of `get_versions_from_ci`'s `for line in content` loop.
`none` models the `ValueError` raised when tuple unpacking of a
comparator split does not yield exactly two pieces. -/
def processLine (st : CiState) (line : String) : Option CiState :=
  if pyContains "# required dependencies" line then
    some { st with seen_required := true }
  else if pyContains "# optional dependencies" line then
    some { st with seen_optional := true }
  else if pyContains "- pip:" line then
    some st
  else if st.seen_required && !(pyStrip line == "") then
    let l := beforeHash line
    if pyContains "==" l then
      (unpackTwo (pySplit "==" (pyStrip l))).map (fun pr => addDep st pr.1 pr.2)
    else if pyContains ">=" l then
      (unpackTwo (pySplit ">=" (pyStrip l))).map (fun pr => addDep st pr.1 pr.2)
    else if pyContains "=" l then
      (unpackTwo (pySplit "=" (pyStrip l))).map (fun pr => addDep st pr.1 pr.2)
    else if pyContains "<" l then
      (unpackTwo (pySplit "<" (pyStrip l))).map (fun pr => addDep st pr.1 pr.2)
    else
      some (addDep st (pyStrip l) "")
  else
    some st

/-- The whole `for line in content` loop of `get_versions_from_ci`. -/
def ciFold : List String → CiState → Option CiState
  | [], st => some st
  | line :: rest, st =>
    match processLine st line with
    | none => none
    | some st2 => ciFold rest st2

/-- `get_versions_from_ci(content)`: the required and optional dicts, or
`none` when a malformed line raises. -/
def get_versions_from_ci (content : List String) :
    Option (List (String × String) × List (String × String)) :=
  (ciFold content ⟨false, false, [], []⟩).map (fun st => (st.required_deps, st.optional_deps))

/-- `package, version = dependency.strip().split(">=")` from
`get_versions_from_toml`; `none` models the `ValueError` when the split
does not yield exactly two pieces. -/
def parse_toml_dep (dep : String) : Option (String × String) :=
  unpackTwo (pySplit ">=" (pyStrip dep))

/-- `install_map.get(package, package)`. -/
def aliasOf (install_map : List (String × String)) (k : String) : String :=
  (pyGet install_map k).getD k

/-- The `for dependency in dependencies` loop of `get_versions_from_toml`,
building `optional_dependencies`. -/
def tomlFold (install_map : List (String × String)) :
    List String → List (String × String) → Option (List (String × String))
  | [], acc => some acc
  | dep :: rest, acc =>
    match parse_toml_dep dep with
    | none => none
    | some pr =>
      tomlFold install_map rest (dictInsert acc (casefold (aliasOf install_map pr.1)) pr.2)

/-- `get_versions_from_toml`, taking the `all` and `test` optional-dependency
groups of `pyproject.toml` and the script's `INSTALL_MAPPING` as data.
Python iterates the set `set(all) - set(test)`; the set difference is
modelled by filtering the `all` list (duplicate strings produce identical
insertions, and `Option` erases which of several malformed entries raises
first, so the unspecified set order is immaterial). -/
def get_versions_from_toml (allDeps testDeps : List String)
    (install_map : List (String × String)) : Option (List (String × String)) :=
  match tomlFold install_map (allDeps.filter (fun d => !testDeps.contains d)) [] with
  | none => none
  | some d => some (EXCLUDE_DEPS.foldl dictRemove d)

/-- `get_versions_from_code`, taking `_optional.INSTALL_MAPPING` and
`_optional.VERSIONS` as data: pop the excluded keys, then build
`{install_map.get(k, k).casefold(): v for k, v in versions.items() if k != "pytest"}`. -/
def get_versions_from_code (install_map versions : List (String × String)) :
    List (String × String) :=
  let versions := versions.filter (fun pr => !EXCLUDE_DEPS.contains pr.1)
  versions.foldl
    (fun acc pr =>
      if pr.1 == "pytest" then acc
      else dictInsert acc (casefold (aliasOf install_map pr.1)) pr.2)
    []

/-- The pair set
`(ci.items() | code.items() | setup.items()) - (ci.items() & code.items() & setup.items())`
from `find_diff`, as a duplicate-free list. -/
def find_diff_pairs (ci code setup : List (String × String)) : List (String × String) :=
  ((ci ++ code ++ setup).dedup).filter
    (fun pr => !(ci.contains pr && code.contains pr && setup.contains pr))

/-- `packages = {package for package, _ in diff}` from `find_diff`. -/
def diff_packages (ci code setup : List (String × String)) : List String :=
  ((find_diff_pairs ci code setup).map (fun pr => pr.1)).dedup

/-- One report block per differing package: the package name and, per
source, `d.get(package, "Not specified")`. -/
def report_blocks (ci code setup : List (String × String)) :
    List (String × String × String × String) :=
  (diff_packages ci code setup).map
    (fun p => (p, getOr ci p "Not specified", getOr code p "Not specified",
               getOr setup p "Not specified"))

/-- `find_diff`: `none` when the diff is empty (nothing printed, `FLAG`
untouched), otherwise the printed report blocks (and `FLAG = 1`). -/
def find_diff (ci code setup : List (String × String)) :
    Option (List (String × String × String × String)) :=
  if find_diff_pairs ci code setup = [] then none
  else some (report_blocks ci code setup)

/-- `check_yml_files`: each file (given as its lines) is parsed and diffed
in turn; `none` models an uncaught parse exception. -/
def check_yml_files (files : List (List String)) (code_optional setup_optional : List (String × String)) :
    Option (List (Option (List (String × String × String × String)))) :=
  match files with
  | [] => some []
  | f :: fs =>
    match get_versions_from_ci f with
    | none => none
    | some pr =>
      match check_yml_files fs code_optional setup_optional with
      | none => none
      | some rest => some (find_diff pr.2 code_optional setup_optional :: rest)

/-- `main()`: build the code and toml dicts, run `check_yml_files` on the
root and `ci/deps` file lists, and exit with `FLAG` (which is `1` exactly
when some file produced a non-empty diff).  Returns the per-file reports
and the exit status; `none` models an uncaught exception (exit by crash). -/
def runMain (code_versions install_map : List (String × String))
    (tomlAll tomlTest : List String)
    (filesRoot filesCi : List (List String)) :
    Option (List (Option (List (String × String × String × String))) × Nat) :=
  match get_versions_from_toml tomlAll tomlTest install_map with
  | none => none
  | some setup_optional =>
    match check_yml_files filesRoot (get_versions_from_code install_map code_versions)
        setup_optional with
    | none => none
    | some r1 =>
      match check_yml_files filesCi (get_versions_from_code install_map code_versions)
          setup_optional with
      | none => none
      | some r2 =>
        some (r1 ++ r2, if (r1 ++ r2).any Option.isSome then 1 else 0)

/-! Helper lemmas about the string and dict primitives. -/

lemma contains_iff {α : Type} [BEq α] [LawfulBEq α] (l : List α) (a : α) :
    l.contains a = true ↔ a ∈ l := by
  show l.elem a = true ↔ a ∈ l
  exact List.elem_iff

lemma mem_of_startsWithList {n : List Char} :
    ∀ {l : List Char}, startsWithList n l = true → ∀ c ∈ n, c ∈ l := by
  induction n with
  | nil =>
    intro l _ c hc
    exact absurd hc (List.not_mem_nil c)
  | cons a as ih =>
    intro l h c hc
    match l with
    | [] => simp [startsWithList] at h
    | b :: bs =>
      simp only [startsWithList, Bool.and_eq_true, beq_iff_eq] at h
      obtain ⟨rfl, h2⟩ := h
      rcases List.mem_cons.mp hc with rfl | hc2
      · exact List.mem_cons_self c bs
      · exact List.mem_cons_of_mem a (ih h2 c hc2)

lemma mem_of_containsSub {n : List Char} :
    ∀ {l : List Char}, containsSub n l = true → ∀ c ∈ n, c ∈ l := by
  intro l
  induction l with
  | nil =>
    intro h c hc
    simp only [containsSub, List.isEmpty_iff] at h
    subst h
    exact absurd hc (List.not_mem_nil c)
  | cons b bs ih =>
    intro h c hc
    simp only [containsSub, Bool.or_eq_true] at h
    rcases h with h | h
    · exact mem_of_startsWithList h c hc
    · exact List.mem_cons_of_mem b (ih h c hc)

lemma containsSub_eq_false {n l : List Char}
    (hl : ∀ c ∈ l, c.isWhitespace = true)
    (hn : ∃ c ∈ n, c.isWhitespace = false) : containsSub n l = false := by
  by_contra h
  rw [Bool.not_eq_false] at h
  obtain ⟨c, hcn, hcw⟩ := hn
  have := hl c (mem_of_containsSub h c hcn)
  rw [this] at hcw
  exact Bool.noConfusion hcw

lemma stripChars_eq_nil {l : List Char}
    (h : ∀ c ∈ l, c.isWhitespace = true) : stripChars l = [] := by
  unfold stripChars
  rw [List.dropWhile_eq_nil_iff.mpr h]
  rfl

lemma splitOnSubFuel_length (sep : List Char) :
    ∀ (n : Nat) (hay acc : List Char), hay.length ≤ n →
      (splitOnSubFuel sep n hay acc).length = countSubFuel sep n hay + 1 := by
  intro n
  induction n with
  | zero => intro hay acc _; rfl
  | succ n ih =>
    intro hay acc h
    match hay with
    | [] => rfl
    | c :: rest =>
      have hrest : rest.length ≤ n := by
        simp only [List.length_cons] at h
        omega
      by_cases hp : startsWithList sep (c :: rest) = true
      · have hlen : (List.drop (sep.length - 1) rest).length ≤ n := by
          rw [List.length_drop]
          omega
        simp only [splitOnSubFuel, countSubFuel, if_pos hp, List.length_cons,
          ih _ [] hlen]
      · simp only [splitOnSubFuel, countSubFuel, if_neg hp]
        exact ih rest (c :: acc) hrest

lemma splitOnSub_length (sep hay : List Char) :
    (splitOnSub sep hay).length = countSub sep hay + 1 :=
  splitOnSubFuel_length sep hay.length hay [] le_rfl

lemma pySplit_length (sep s : String) :
    (pySplit sep s).length = countSub sep.data s.data + 1 := by
  simp [pySplit, splitOnSub_length]

lemma pyGet_eq_some_mem {d : List (String × String)} {k v : String}
    (h : pyGet d k = some v) : (k, v) ∈ d := by
  unfold pyGet at h
  match hf : d.find? (fun pr => pr.1 == k) with
  | none => rw [hf] at h; cases h
  | some pr =>
    rw [hf] at h
    have hm := List.mem_of_find?_eq_some hf
    have hp := List.find?_some hf
    cases pr with
    | mk a b =>
      simp at h hp
      obtain rfl : a = k := hp
      obtain rfl : b = v := h
      exact hm

lemma pyGet_eq_none_not_mem {d : List (String × String)} {k : String}
    (h : pyGet d k = none) : ∀ v, (k, v) ∉ d := by
  intro v hv
  unfold pyGet at h
  rw [Option.map_eq_none'] at h
  rw [List.find?_eq_none] at h
  have := h (k, v) hv
  simp at this

lemma pyGet_of_nodup {d : List (String × String)} {k v : String}
    (hd : (d.map Prod.fst).Nodup) (h : (k, v) ∈ d) : pyGet d k = some v := by
  induction d with
  | nil => exact absurd h (List.not_mem_nil _)
  | cons pr rest ih =>
    simp only [List.map_cons, List.nodup_cons] at hd
    obtain ⟨hk, hrest⟩ := hd
    rcases List.mem_cons.mp h with he | h2
    · subst he
      unfold pyGet
      rw [List.find?_cons_of_pos _ (by simp)]
      rfl
    · have hne : (pr.1 == k) = false := by
        rw [beq_eq_false_iff_ne]
        intro he
        apply hk
        rw [he]
        exact List.mem_map_of_mem Prod.fst h2
      unfold pyGet
      rw [List.find?_cons_of_neg _ (by simp [hne])]
      exact ih hrest h2

lemma mem_find_diff_pairs {ci code setup : List (String × String)}
    {pr : String × String} :
    pr ∈ find_diff_pairs ci code setup ↔
      (pr ∈ ci ∨ pr ∈ code ∨ pr ∈ setup) ∧
      ¬(pr ∈ ci ∧ pr ∈ code ∧ pr ∈ setup) := by
  unfold find_diff_pairs
  rw [List.mem_filter, List.mem_dedup, List.mem_append, List.mem_append]
  constructor
  · rintro ⟨hm, hq⟩
    refine ⟨by tauto, ?_⟩
    rintro ⟨hc1, hc2, hc3⟩
    rw [(contains_iff _ _).mpr hc1, (contains_iff _ _).mpr hc2,
      (contains_iff _ _).mpr hc3] at hq
    simp at hq
  · rintro ⟨hm, hq⟩
    refine ⟨by tauto, ?_⟩
    have hq2 : ¬(ci.contains pr = true ∧ code.contains pr = true ∧
        setup.contains pr = true) := by
      rw [contains_iff, contains_iff, contains_iff]
      exact hq
    cases hc1 : ci.contains pr <;> cases hc2 : code.contains pr <;>
      cases hc3 : setup.contains pr <;> simp_all

/-- C1: `find_diff` computes exactly the symmetric difference
`(A ∪ B ∪ C) − (A ∩ B ∩ C)` over (package, version) pairs, where a pair is
common only when both components match in all three dicts; consequently a
package recorded with the same version string in all three dicts
contributes no pair to the differing pairs and never appears among the
reported packages. -/
theorem find_diff_symm_diff_no_false_positive
    (ci code setup : List (String × String)) (p v : String)
    (hn1 : (ci.map Prod.fst).Nodup) (hn2 : (code.map Prod.fst).Nodup)
    (hn3 : (setup.map Prod.fst).Nodup)
    (h1 : pyGet ci p = some v) (h2 : pyGet code p = some v)
    (h3 : pyGet setup p = some v) :
    (find_diff_pairs ci code setup).toFinset =
      (ci.toFinset ∪ code.toFinset ∪ setup.toFinset) \
        (ci.toFinset ∩ code.toFinset ∩ setup.toFinset) ∧
    (∀ w, (p, w) ∉ find_diff_pairs ci code setup) ∧
    p ∉ diff_packages ci code setup := by
  have hnfp : ∀ w, (p, w) ∉ find_diff_pairs ci code setup := by
    intro w hw
    rw [mem_find_diff_pairs] at hw
    obtain ⟨hm, hq⟩ := hw
    have hwv : w = v := by
      rcases hm with h | h | h
      · have hg := pyGet_of_nodup hn1 h
        rw [h1] at hg
        exact (Option.some_inj.mp hg).symm
      · have hg := pyGet_of_nodup hn2 h
        rw [h2] at hg
        exact (Option.some_inj.mp hg).symm
      · have hg := pyGet_of_nodup hn3 h
        rw [h3] at hg
        exact (Option.some_inj.mp hg).symm
    subst hwv
    exact hq ⟨pyGet_eq_some_mem h1, pyGet_eq_some_mem h2, pyGet_eq_some_mem h3⟩
  refine ⟨?_, hnfp, ?_⟩
  · ext pr
    rw [List.mem_toFinset, mem_find_diff_pairs]
    simp only [Finset.mem_sdiff, Finset.mem_union, Finset.mem_inter,
      List.mem_toFinset]
    tauto
  · intro hp
    unfold diff_packages at hp
    rw [List.mem_dedup] at hp
    obtain ⟨pr, hpr, he⟩ := List.mem_map.mp hp
    cases pr with
    | mk a b =>
      simp only at he
      subst he
      exact hnfp b hpr

/-- C1 witness: concrete agreement of all three dicts on ("foo", "1.0"). -/
theorem find_diff_symm_diff_no_false_positive_witness :
    pyGet [(("foo" : String), ("1.0" : String))] "foo" = some "1.0" ∧
    ("foo", "1.0") ∉
      find_diff_pairs [("foo", "1.0")] [("foo", "1.0")] [("foo", "1.0")] ∧
    "foo" ∉ diff_packages [("foo", "1.0")] [("foo", "1.0")] [("foo", "1.0")] := by
  have h := find_diff_symm_diff_no_false_positive
    [("foo", "1.0")] [("foo", "1.0")] [("foo", "1.0")] "foo" "1.0"
    (by decide) (by decide) (by decide) (by decide) (by decide) (by decide)
  exact ⟨by decide, h.2.1 "1.0", h.2.2⟩

/-- C2 (amended): excluded package names never appear as keys of the
manifest (`pyproject.toml`) DependencySet, for any input, because they are
popped after key normalization; in the CI reader a dependency record
whose extracted package token equals an excluded name before casefolding
contributes no record; and in the code reader an entry of the version
table whose literal key is an excluded name contributes nothing, the pop
happening before aliasing and casefolding.  (The original claim fails for
the CI and code sets and for the report: exclusion there precedes key
normalization, so case-variant or aliased inputs reintroduce excluded
keys — see the counterexample.) -/
theorem excluded_absent_from_toml_and_ci_drops_excluded_tokens :
    (∀ (allDeps testDeps : List String) (im d : List (String × String)),
        get_versions_from_toml allDeps testDeps im = some d →
        ∀ e ∈ EXCLUDE_DEPS, ∀ pr ∈ d, pr.1 ≠ e) ∧
    (∀ (st : CiState) (package version : String),
        EXCLUDE_DEPS.contains (pyDropTwo package) = true →
        addDep st package version = st) ∧
    (∀ (im versions : List (String × String)) (e v : String),
        e ∈ EXCLUDE_DEPS →
        get_versions_from_code im ((e, v) :: versions) =
          get_versions_from_code im versions) := by
  refine ⟨?_, ?_, ?_⟩
  · intro allDeps testDeps im d hd e he pr hpr heq
    unfold get_versions_from_toml at hd
    cases htf : tomlFold im (allDeps.filter (fun d => !testDeps.contains d)) [] with
    | none => rw [htf] at hd; cases hd
    | some d0 =>
      rw [htf] at hd
      simp only [Option.some_inj] at hd
      subst hd
      have hfold : EXCLUDE_DEPS.foldl dictRemove d0 =
          dictRemove (dictRemove d0 "tzdata") "blosc" := rfl
      rw [hfold] at hpr
      have houter := List.mem_filter.mp hpr
      have hinner := List.mem_filter.mp houter.1
      have hb := houter.2
      have ht := hinner.2
      simp [EXCLUDE_DEPS] at he
      rcases he with rfl | rfl
      · rw [heq] at ht
        simp at ht
      · rw [heq] at hb
        simp at hb
  · intro st package version h
    unfold addDep
    simp only [h, if_true]
  · intro im versions e v he
    have hc : (!EXCLUDE_DEPS.contains e) = false := by
      rw [(contains_iff _ _).mpr he]
      rfl
    unfold get_versions_from_code
    simp only [List.filter_cons, hc, Bool.false_eq_true, if_false]

/-- C2 counterexample: exclusion precedes key normalization in the CI and
code readers, so case variants of the excluded name "tzdata" put the key
"tzdata" into the CI required and optional sets and into the code set
(versions key "Tzdata"), and the key then reaches a report block —
refuting "the package is absent from every DependencySet and never
appears in any report block, regardless of input content". -/
theorem excluded_key_in_ci_counterexample :
    get_versions_from_ci ["# required dependencies", "- Tzdata"] =
      some ([("tzdata", "")], []) ∧
    "tzdata" ∈ EXCLUDE_DEPS ∧
    get_versions_from_ci
        ["# required dependencies", "# optional dependencies", "- Tzdata"] =
      some ([], [("tzdata", "")]) ∧
    get_versions_from_code [] [("Tzdata", "2022")] = [("tzdata", "2022")] ∧
    ("tzdata", "", "Not specified", "Not specified") ∈
      report_blocks [("tzdata", "")] [] [] :=
  ⟨by decide, by decide, by decide, by decide, by decide⟩

/-- C2 witness: concrete instances of both amended conjuncts, via the
theorem.  "tzdata>=2022" is parsed by the manifest reader but popped from
the result, and the CI tail drops the exact token "tzdata". -/
theorem excluded_absent_witness :
    ("tzdata", "2022") ∉ ([("numpy", "1.0")] : List (String × String)) ∧
    addDep ⟨true, false, [], []⟩ "- tzdata" "2022" = ⟨true, false, [], []⟩ ∧
    get_versions_from_code [] [("tzdata", "2022"), ("numpy", "1.0")] =
      get_versions_from_code [] [("numpy", "1.0")] := by
  refine ⟨?_, ?_, ?_⟩
  · intro hmem
    exact (excluded_absent_from_toml_and_ci_drops_excluded_tokens).1
      ["tzdata>=2022", "numpy>=1.0"] [] [] [("numpy", "1.0")] (by decide)
      "tzdata" (by decide) ("tzdata", "2022") hmem rfl
  · exact (excluded_absent_from_toml_and_ci_drops_excluded_tokens).2.1
      ⟨true, false, [], []⟩ "- tzdata" "2022" (by decide)
  · exact (excluded_absent_from_toml_and_ci_drops_excluded_tokens).2.2
      [] [("numpy", "1.0")] "tzdata" "2022" (by decide)

/-- C5: on the four example lines the CI reader returns required-set
{"foo": "1.2.0"} and optional-set {"bar": "2.0"}; a line containing a
sentinel only sets the corresponding flag and contributes no record; and
the comparator priority picks "==" before ">=" (shown on a line containing
both, whose package token keeps the ">=" text). -/
theorem ci_reader_example_sentinels_and_priority :
    get_versions_from_ci
        ["# required dependencies", "- foo==1.2.0",
         "# optional dependencies", "- bar>=2.0"] =
      some ([("foo", "1.2.0")], [("bar", "2.0")]) ∧
    (∀ (st : CiState) (line : String),
        pyContains "# required dependencies" line = true →
        processLine st line = some { st with seen_required := true }) ∧
    (∀ (st : CiState) (line : String),
        pyContains "# required dependencies" line = false →
        pyContains "# optional dependencies" line = true →
        processLine st line = some { st with seen_optional := true }) ∧
    get_versions_from_ci ["# required dependencies", "- x>=1==2"] =
      some ([("x>=1", "2")], []) := by
  refine ⟨by decide, ?_, ?_, by decide⟩
  · intro st line h
    simp [processLine, h]
  · intro st line h1 h2
    simp [processLine, h1, h2]

/-- C5 witness: the sentinel conjuncts applied to concrete lines. -/
theorem ci_reader_example_sentinels_and_priority_witness :
    processLine ⟨false, false, [], []⟩ "# required dependencies" =
      some ⟨true, false, [], []⟩ ∧
    processLine ⟨true, false, [], []⟩ "  # optional dependencies" =
      some ⟨true, true, [], []⟩ := by
  exact ⟨(ci_reader_example_sentinels_and_priority).2.1
           ⟨false, false, [], []⟩ "# required dependencies" (by decide),
         (ci_reader_example_sentinels_and_priority).2.2.1
           ⟨true, false, [], []⟩ "  # optional dependencies"
           (by decide) (by decide)⟩

/-- C8: every line processed while `seen_required` is still false leaves
both dicts unchanged (only the sentinel flags can change, and no exception
is raised), and an all-whitespace line leaves the whole state unchanged
regardless of the section flags. -/
theorem ci_reader_pre_sentinel_and_blank_lines :
    (∀ (st : CiState) (line : String), st.seen_required = false →
        ∃ st2, processLine st line = some st2 ∧
          st2.required_deps = st.required_deps ∧
          st2.optional_deps = st.optional_deps) ∧
    (∀ (st : CiState) (line : String),
        (∀ c ∈ line.data, c.isWhitespace = true) →
        processLine st line = some st) := by
  constructor
  · intro st line h
    by_cases h1 : pyContains "# required dependencies" line = true
    · exact ⟨{ st with seen_required := true }, by simp [processLine, h1], rfl, rfl⟩
    · by_cases h2 : pyContains "# optional dependencies" line = true
      · exact ⟨{ st with seen_optional := true }, by simp [processLine, h1, h2], rfl, rfl⟩
      · by_cases h3 : pyContains "- pip:" line = true
        · exact ⟨st, by simp [processLine, h1, h2, h3], rfl, rfl⟩
        · exact ⟨st, by simp [processLine, h1, h2, h3, h], rfl, rfl⟩
  · intro st line h
    have h1 : pyContains "# required dependencies" line = false := by
      unfold pyContains
      exact containsSub_eq_false h (by decide)
    have h2 : pyContains "# optional dependencies" line = false := by
      unfold pyContains
      exact containsSub_eq_false h (by decide)
    have h3 : pyContains "- pip:" line = false := by
      unfold pyContains
      exact containsSub_eq_false h (by decide)
    have h4 : pyStrip line = "" := by
      unfold pyStrip
      rw [stripChars_eq_nil h]
    simp [processLine, h1, h2, h3, h4]

/-- C8 witness: the theorem at a blank line and at a pre-sentinel
dependency line. -/
theorem ci_reader_pre_sentinel_and_blank_lines_witness :
    processLine ⟨true, true, [("a", "1")], []⟩ "   " =
      some ⟨true, true, [("a", "1")], []⟩ ∧
    (processLine ⟨false, false, [], []⟩ "- foo==1.0").isSome = true := by
  constructor
  · exact (ci_reader_pre_sentinel_and_blank_lines).2
      ⟨true, true, [("a", "1")], []⟩ "   " (by decide)
  · obtain ⟨st2, he, -, -⟩ := (ci_reader_pre_sentinel_and_blank_lines).1
      ⟨false, false, [], []⟩ "- foo==1.0" rfl
    rw [he]
    rfl

/-- C9: after the required sentinel, a non-blank line whose text before its
first '#' is only whitespace (a comment-only line that is not a sentinel
and has no "- pip:") is not skipped: it records the pair ("", "") in the
section selected by `seen_optional`. -/
theorem ci_reader_comment_only_line_adds_empty_record
    (st : CiState) (line : String)
    (hreq : st.seen_required = true)
    (h1 : pyContains "# required dependencies" line = false)
    (h2 : pyContains "# optional dependencies" line = false)
    (h3 : pyContains "- pip:" line = false)
    (h4 : pyStrip line ≠ "")
    (h5 : ∀ c ∈ (beforeHash line).data, c.isWhitespace = true) :
    processLine st line =
      some (if st.seen_optional then
              { st with optional_deps := dictInsert st.optional_deps "" "" }
            else
              { st with required_deps := dictInsert st.required_deps "" "" }) := by
  have hc1 : pyContains "==" (beforeHash line) = false := by
    unfold pyContains
    exact containsSub_eq_false h5 (by decide)
  have hc2 : pyContains ">=" (beforeHash line) = false := by
    unfold pyContains
    exact containsSub_eq_false h5 (by decide)
  have hc3 : pyContains "=" (beforeHash line) = false := by
    unfold pyContains
    exact containsSub_eq_false h5 (by decide)
  have hc4 : pyContains "<" (beforeHash line) = false := by
    unfold pyContains
    exact containsSub_eq_false h5 (by decide)
  have hstrip : pyStrip (beforeHash line) = "" := by
    unfold pyStrip
    rw [stripChars_eq_nil h5]
  simp only [processLine, h1, h2, h3, hreq, hc1, hc2, hc3, hc4, hstrip,
    Bool.false_eq_true, if_false, Bool.true_and]
  have hg : (pyStrip line == "") = false := by
    rw [beq_eq_false_iff_ne]
    exact h4
  rw [hg]
  simp only [Bool.not_false, if_true]
  cases hso : st.seen_optional <;>
    simp [addDep, pyDropTwo, casefold, hso, hreq, EXCLUDE_DEPS]

/-- C9 witness: the comment-only line " #x" after the required sentinel
records ("", "") in the required set. -/
theorem ci_reader_comment_only_line_witness :
    processLine ⟨true, false, [], []⟩ " #x" =
      some ⟨true, false, [("", "")], []⟩ := by
  have h := ci_reader_comment_only_line_adds_empty_record
    ⟨true, false, [], []⟩ " #x" rfl (by decide) (by decide) (by decide)
    (by decide) (by decide)
  exact h

lemma unpackTwo_isSome_iff (L : List String) :
    (unpackTwo L).isSome = true ↔ L.length = 2 := by
  match L with
  | [] => simp [unpackTwo]
  | [a] => simp [unpackTwo]
  | [a, b] => simp [unpackTwo]
  | a :: b :: c :: rest => simp [unpackTwo]

/-- C10: within the dependency branch (required sentinel seen, line
non-blank, no sentinel, no "- pip:"), the reader returns normally exactly
when the highest-priority comparator present in the comment-stripped text
splits the stripped text into two pieces, i.e. occurs exactly once — or no
comparator is present at all; otherwise tuple unpacking raises.
Concretely, "- a=b=c" after the required sentinel aborts the whole
reader. -/
theorem ci_reader_unpacking_totality
    (st : CiState) (line : String)
    (hreq : st.seen_required = true)
    (h1 : pyContains "# required dependencies" line = false)
    (h2 : pyContains "# optional dependencies" line = false)
    (h3 : pyContains "- pip:" line = false)
    (h4 : pyStrip line ≠ "") :
    ((processLine st line).isSome = true ↔
      (if pyContains "==" (beforeHash line) = true then
        countSub "==".data (pyStrip (beforeHash line)).data = 1
      else if pyContains ">=" (beforeHash line) = true then
        countSub ">=".data (pyStrip (beforeHash line)).data = 1
      else if pyContains "=" (beforeHash line) = true then
        countSub "=".data (pyStrip (beforeHash line)).data = 1
      else if pyContains "<" (beforeHash line) = true then
        countSub "<".data (pyStrip (beforeHash line)).data = 1
      else True)) ∧
    get_versions_from_ci ["# required dependencies", "- a=b=c"] = none := by
  refine ⟨?_, by decide⟩
  have hg : (pyStrip line == "") = false := by
    rw [beq_eq_false_iff_ne]
    exact h4
  simp only [processLine, h1, h2, h3, hreq, hg, Bool.false_eq_true, if_false,
    Bool.true_and, Bool.not_false, if_true]
  have key : ∀ sep : String,
      ((unpackTwo (pySplit sep (pyStrip (beforeHash line)))).map
          (fun pr => addDep st pr.1 pr.2)).isSome = true ↔
        countSub sep.data (pyStrip (beforeHash line)).data = 1 := by
    intro sep
    rw [Option.isSome_map']
    rw [unpackTwo_isSome_iff]
    rw [pySplit_length]
    omega
  by_cases hc1 : pyContains "==" (beforeHash line) = true
  · simp only [hc1, if_true]
    exact key "=="
  · simp only [hc1, if_false]
    by_cases hc2 : pyContains ">=" (beforeHash line) = true
    · simp only [hc2, if_true]
      exact key ">="
    · simp only [hc2, if_false]
      by_cases hc3 : pyContains "=" (beforeHash line) = true
      · simp only [hc3, if_true]
        exact key "="
      · simp only [hc3, if_false]
        by_cases hc4 : pyContains "<" (beforeHash line) = true
        · simp only [hc4, if_true]
          exact key "<"
        · simp only [hc4, if_false]
          simp

/-- C10 witness: the dependency branch at the concrete line "- a=b=c"
(selected comparator "=", which occurs twice). -/
theorem ci_reader_unpacking_totality_witness :
    (processLine ⟨true, false, [], []⟩ "- a=b=c").isSome = true ↔
      (if pyContains "==" (beforeHash "- a=b=c") = true then
        countSub "==".data (pyStrip (beforeHash "- a=b=c")).data = 1
      else if pyContains ">=" (beforeHash "- a=b=c") = true then
        countSub ">=".data (pyStrip (beforeHash "- a=b=c")).data = 1
      else if pyContains "=" (beforeHash "- a=b=c") = true then
        countSub "=".data (pyStrip (beforeHash "- a=b=c")).data = 1
      else if pyContains "<" (beforeHash "- a=b=c") = true then
        countSub "<".data (pyStrip (beforeHash "- a=b=c")).data = 1
      else True) :=
  (ci_reader_unpacking_totality ⟨true, false, [], []⟩ "- a=b=c" rfl
    (by decide) (by decide) (by decide) (by decide)).1

lemma tomlFold_eq_none {im : List (String × String)} :
    ∀ (deps : List String) (acc : List (String × String)),
      (∃ dep ∈ deps, (parse_toml_dep dep).isSome = false) →
      tomlFold im deps acc = none := by
  intro deps
  induction deps with
  | nil =>
    rintro acc ⟨dep, hmem, -⟩
    exact absurd hmem (List.not_mem_nil dep)
  | cons d rest ih =>
    rintro acc ⟨dep, hmem, hfail⟩
    rcases List.mem_cons.mp hmem with rfl | hmem2
    · unfold tomlFold
      cases hp : parse_toml_dep dep with
      | none => rfl
      | some pr =>
        rw [hp] at hfail
        cases hfail
    · unfold tomlFold
      cases hp : parse_toml_dep d with
      | none => rfl
      | some pr => exact ih _ ⟨dep, hmem2, hfail⟩

/-- C4 (amended): the manifest reader splits each remaining dependency
string (after the all − test subtraction) on ">=", succeeding exactly when
">=" occurs exactly once in the stripped string — so it fails not only
when a different comparator or no comparator is used, but also when ">="
occurs more than once; on any such failure the whole run aborts with no
report produced. -/
theorem toml_split_iff_and_abort :
    (∀ dep : String,
        (parse_toml_dep dep).isSome = true ↔
          countSub ">=".data (pyStrip dep).data = 1) ∧
    (∀ (allDeps testDeps : List String) (im : List (String × String)),
        (∃ dep ∈ allDeps.filter (fun d => !testDeps.contains d),
            (parse_toml_dep dep).isSome = false) →
        get_versions_from_toml allDeps testDeps im = none) ∧
    (∀ (cv im : List (String × String)) (ta tt : List String)
        (fr fc : List (List String)),
        get_versions_from_toml ta tt im = none →
        runMain cv im ta tt fr fc = none) := by
  refine ⟨?_, ?_, ?_⟩
  · intro dep
    unfold parse_toml_dep
    rw [unpackTwo_isSome_iff, pySplit_length]
    omega
  · intro allDeps testDeps im hex
    unfold get_versions_from_toml
    rw [tomlFold_eq_none _ _ hex]
  · intro cv im ta tt fr fc h
    unfold runMain
    rw [h]

/-- C4 counterexample: "a>=b>=c" uses the minimum-version comparator ">="
and no different comparator, yet the manifest reader fails on it — the
failure condition is not "different comparator or none" but ">= not
occurring exactly once". -/
theorem toml_split_counterexample :
    parse_toml_dep "a>=b>=c" = none ∧
    pyContains ">=" "a>=b>=c" = true ∧
    pyContains "==" "a>=b>=c" = false ∧
    pyContains "<" "a>=b>=c" = false :=
  ⟨by decide, by decide, by decide, by decide⟩

/-- C4 witness: the success iff at the well-formed "foo>=1.0", and the
abort propagation at a run whose manifest contains "a>=b>=c". -/
theorem toml_split_iff_and_abort_witness :
    ((parse_toml_dep "foo>=1.0").isSome = true ↔
      countSub ">=".data (pyStrip "foo>=1.0").data = 1) ∧
    runMain [] [] ["a>=b>=c"] [] [["# required dependencies"]] [] = none := by
  refine ⟨(toml_split_iff_and_abort).1 "foo>=1.0", ?_⟩
  exact (toml_split_iff_and_abort).2.2 [] [] ["a>=b>=c"] [] [["# required dependencies"]] []
    (by decide)

lemma filter_erase_eq {p : String → Bool} {s : String} (hp : p s = false) :
    ∀ l : List String, (l.erase s).filter p = l.filter p := by
  intro l
  induction l with
  | nil => rfl
  | cons a rest ih =>
    by_cases ha : a = s
    · subst ha
      simp [List.erase_cons, List.filter_cons, hp]
    · have hab : (a == s) = false := by
        rw [beq_eq_false_iff_ne]
        exact ha
      simp only [List.erase_cons, hab, Bool.false_eq_true, if_false, List.filter_cons]
      cases hpa : p a
      · exact ih
      · rw [ih]

/-- C6: on the example groups all = ["foo>=1.0", "pytest>=7.0"] and
test = ["pytest>=7.0"] the manifest reader returns exactly
{"foo": "1.0"}; and in general a dependency string belonging to the test
group can be erased from the all group without changing the result — the
subtraction happens on whole strings, before any splitting, aliasing or
casefolding. -/
theorem toml_test_group_subtraction :
    get_versions_from_toml ["foo>=1.0", "pytest>=7.0"] ["pytest>=7.0"] [] =
      some [("foo", "1.0")] ∧
    (∀ (allDeps testDeps : List String) (im : List (String × String)) (s : String),
        s ∈ testDeps →
        get_versions_from_toml allDeps testDeps im =
          get_versions_from_toml (allDeps.erase s) testDeps im) := by
  refine ⟨by decide, ?_⟩
  intro allDeps testDeps im s hs
  have hp : (!testDeps.contains s) = false := by
    rw [(contains_iff _ _).mpr hs]
    rfl
  unfold get_versions_from_toml
  rw [filter_erase_eq hp allDeps]

/-- C6 witness: erasing the test-group string "pytest>=7.0" from the all
group leaves the manifest reader's result unchanged. -/
theorem toml_test_group_subtraction_witness :
    get_versions_from_toml ["foo>=1.0", "pytest>=7.0"] ["pytest>=7.0"] [] =
      get_versions_from_toml (["foo>=1.0", "pytest>=7.0"].erase "pytest>=7.0")
        ["pytest>=7.0"] [] :=
  (toml_test_group_subtraction).2 ["foo>=1.0", "pytest>=7.0"] ["pytest>=7.0"] []
    "pytest>=7.0" (by decide)

/-- C7: every package among the differing pairs gets a report block
carrying, for each of the three sources, its recorded version or the
literal "Not specified"; in particular a package present in the code and
manifest dicts but absent from the CI optional dict is reported with
"Not specified" for the CI source. -/
theorem report_blocks_not_specified
    (ci code setup : List (String × String)) (p v w : String)
    (hc : pyGet code p = some v) (hs : pyGet setup p = some w)
    (hci : pyGet ci p = none) :
    (∀ q ∈ diff_packages ci code setup,
        (q, getOr ci q "Not specified", getOr code q "Not specified",
         getOr setup q "Not specified") ∈ report_blocks ci code setup) ∧
    p ∈ diff_packages ci code setup ∧
    (p, "Not specified", v, w) ∈ report_blocks ci code setup := by
  have hblocks : ∀ q ∈ diff_packages ci code setup,
      (q, getOr ci q "Not specified", getOr code q "Not specified",
       getOr setup q "Not specified") ∈ report_blocks ci code setup :=
    fun q hq => List.mem_map_of_mem _ hq
  have hpv : (p, v) ∈ find_diff_pairs ci code setup := by
    rw [mem_find_diff_pairs]
    constructor
    · exact Or.inr (Or.inl (pyGet_eq_some_mem hc))
    · rintro ⟨hin, -, -⟩
      exact pyGet_eq_none_not_mem hci v hin
  have hp : p ∈ diff_packages ci code setup := by
    unfold diff_packages
    rw [List.mem_dedup]
    exact List.mem_map.mpr ⟨(p, v), hpv, rfl⟩
  refine ⟨hblocks, hp, ?_⟩
  have hb := hblocks p hp
  have e1 : getOr ci p "Not specified" = "Not specified" := by
    unfold getOr
    rw [hci]
    rfl
  have e2 : getOr code p "Not specified" = v := by
    unfold getOr
    rw [hc]
    rfl
  have e3 : getOr setup p "Not specified" = w := by
    unfold getOr
    rw [hs]
    rfl
  rw [e1, e2, e3] at hb
  exact hb

/-- C7 witness: "foo" is in code and manifest dicts but not in the CI
dict, and its block carries "Not specified" for the CI source. -/
theorem report_blocks_not_specified_witness :
    "foo" ∈ diff_packages [] [("foo", "1.0")] [("foo", "1.0")] ∧
    ("foo", "Not specified", "1.0", "1.0") ∈
      report_blocks [] [("foo", "1.0")] [("foo", "1.0")] := by
  have h := report_blocks_not_specified [] [("foo", "1.0")] [("foo", "1.0")]
    "foo" "1.0" "1.0" (by decide) (by decide) (by decide)
  exact ⟨h.2.1, h.2.2⟩

lemma find_diff_eq_none_iff (ci code setup : List (String × String)) :
    find_diff ci code setup = none ↔ find_diff_pairs ci code setup = [] := by
  unfold find_diff
  by_cases h : find_diff_pairs ci code setup = []
  · simp [h]
  · simp [h]

lemma check_yml_files_some {code setup : List (String × String)} :
    ∀ {files : List (List String)}
      {reps : List (Option (List (String × String × String × String)))},
      check_yml_files files code setup = some reps →
      reps.length = files.length ∧
      (∀ f ∈ files, ∃ req opt, get_versions_from_ci f = some (req, opt)) ∧
      ((∀ r ∈ reps, r = none) ↔
        ∀ f ∈ files, ∀ req opt, get_versions_from_ci f = some (req, opt) →
          find_diff_pairs opt code setup = []) := by
  intro files
  induction files with
  | nil =>
    intro reps h
    unfold check_yml_files at h
    simp only [Option.some_inj] at h
    subst h
    refine ⟨rfl, by simp, ?_⟩
    constructor
    · intro _ f hf
      exact absurd hf (List.not_mem_nil f)
    · intro _ r hr
      exact absurd hr (List.not_mem_nil r)
  | cons f fs ih =>
    intro reps h
    unfold check_yml_files at h
    cases hci : get_versions_from_ci f with
    | none => rw [hci] at h; cases h
    | some pr =>
      rw [hci] at h
      cases hrest : check_yml_files fs code setup with
      | none => rw [hrest] at h; cases h
      | some rest =>
        rw [hrest] at h
        simp only [Option.some_inj] at h
        subst h
        obtain ⟨hlen, hall, hiff⟩ := ih hrest
        refine ⟨by simp [hlen], ?_, ?_⟩
        · intro g hg
          rcases List.mem_cons.mp hg with rfl | hg2
          · exact ⟨pr.1, pr.2, by rw [hci]⟩
          · exact hall g hg2
        · constructor
          · intro hnone g hg req opt hgo
            rcases List.mem_cons.mp hg with rfl | hg2
            · have h0 := hnone _ (List.mem_cons_self _ _)
              rw [hci] at hgo
              simp only [Option.some_inj] at hgo
              subst hgo
              exact (find_diff_eq_none_iff _ _ _).mp h0
            · exact (hiff.mp (fun r hr => hnone r (List.mem_cons_of_mem _ hr)))
                g hg2 req opt hgo
          · intro hcond r hr
            rcases List.mem_cons.mp hr with rfl | hr2
            · have hdp := hcond f (List.mem_cons_self _ _) pr.1 pr.2 (by rw [hci])
              exact (find_diff_eq_none_iff _ _ _).mpr hdp
            · exact hiff.mpr
                (fun g hg req opt hgo =>
                  hcond g (List.mem_cons_of_mem _ hg) req opt hgo) r hr2

/-- C3: whenever the run completes (returning an exit status at all), the
exit status is 0 iff every discovered file's optional set produces an
empty pair-diff against the code and manifest dicts; moreover every
discovered file is parsed and contributes its own report slot — a
non-empty diff for one file does not stop the processing or reporting of
subsequent files. -/
theorem main_exit_status
    (cv im : List (String × String)) (ta tt : List String)
    (fr fc : List (List String))
    (reps : List (Option (List (String × String × String × String))))
    (ec : Nat)
    (h : runMain cv im ta tt fr fc = some (reps, ec))
    (su : List (String × String))
    (hsu : get_versions_from_toml ta tt im = some su) :
    reps.length = fr.length + fc.length ∧
    (∀ f ∈ fr ++ fc, ∃ req opt, get_versions_from_ci f = some (req, opt)) ∧
    (ec = 0 ↔
      ∀ f ∈ fr ++ fc, ∀ req opt, get_versions_from_ci f = some (req, opt) →
        find_diff_pairs opt (get_versions_from_code im cv) su = []) := by
  unfold runMain at h
  rw [hsu] at h
  dsimp only at h
  cases h1 : check_yml_files fr (get_versions_from_code im cv) su with
  | none => rw [h1] at h; cases h
  | some r1 =>
    rw [h1] at h
    cases h2 : check_yml_files fc (get_versions_from_code im cv) su with
    | none => rw [h2] at h; cases h
    | some r2 =>
      rw [h2] at h
      simp only [Option.some_inj, Prod.mk.injEq] at h
      obtain ⟨hreps, hec⟩ := h
      subst hreps
      obtain ⟨hl1, ha1, hi1⟩ := check_yml_files_some h1
      obtain ⟨hl2, ha2, hi2⟩ := check_yml_files_some h2
      refine ⟨by simp [hl1, hl2], ?_, ?_⟩
      · intro f hf
        rcases List.mem_append.mp hf with hf | hf
        · exact ha1 f hf
        · exact ha2 f hf
      · rw [← hec]
        constructor
        · intro h0 f hf req opt hgo
          have hany : (r1 ++ r2).any Option.isSome = false := by
            by_contra hb
            rw [Bool.not_eq_false] at hb
            rw [hb] at h0
            simp at h0
          have hnone : ∀ r ∈ r1 ++ r2, r = none := by
            intro r hr
            have hfalse : r.isSome = false := by
              have := List.any_eq_false.mp hany r hr
              revert this
              cases r.isSome <;> simp
            rwa [← Option.not_isSome_iff_eq_none, Bool.not_eq_true]
          rcases List.mem_append.mp hf with hf2 | hf2
          · exact (hi1.mp
              (fun r hr => hnone r (List.mem_append.mpr (Or.inl hr))))
              f hf2 req opt hgo
          · exact (hi2.mp
              (fun r hr => hnone r (List.mem_append.mpr (Or.inr hr))))
              f hf2 req opt hgo
        · intro hall
          have hnone : ∀ r ∈ r1 ++ r2, r = none := by
            intro r hr
            rcases List.mem_append.mp hr with hr2 | hr2
            · exact hi1.mpr
                (fun g hg req opt hgo =>
                  hall g (List.mem_append.mpr (Or.inl hg)) req opt hgo) r hr2
            · exact hi2.mpr
                (fun g hg req opt hgo =>
                  hall g (List.mem_append.mpr (Or.inr hg)) req opt hgo) r hr2
          have hany : (r1 ++ r2).any Option.isSome = false := by
            rw [List.any_eq_false]
            intro r hr
            rw [hnone r hr]
            simp
          rw [hany]
          simp

/-- C3 witness: a completed run over one agreeing file, with exit status 0
and one (empty) report slot for the single discovered file. -/
theorem main_exit_status_witness :
    runMain [] [] [] [] [["# required dependencies"]] [] = some ([none], 0) ∧
    find_diff_pairs [] (get_versions_from_code [] []) [] = [] := by
  refine ⟨by rfl, ?_⟩
  obtain ⟨-, -, hiff⟩ := main_exit_status [] [] [] [] [["# required dependencies"]] []
    [none] 0 (by rfl) [] (by decide)
  exact hiff.mp rfl ["# required dependencies"] (by simp) [] [] (by decide)

end MinVersionSync
